import Mathlib

/-!
Verification of the rectangle-overlap engine of `src/day3.rs` against its
natural-language specification.

The Rust code is shallowly embedded: `usize` is modelled as `Nat` (no claim
under consideration depends on 64-bit wrap-around), Rust's `HashSet` is
modelled as `Finset`, strings as `List Char`, and fallible or crashing code
returns an explicit outcome value.
-/

namespace Day3

/-- The rectangle of `day3.rs` (note: the struct has no `id` field; the
`#ID` token of an input line is never parsed). -/
structure Rect where
  x : Nat
  y : Nat
  width : Nat
  height : Nat
deriving DecidableEq

/-- A 1x1 point in the cloth (`struct Point` in `day3.rs`). -/
structure Point where
  x : Nat
  y : Nat
deriving DecidableEq

/-- `Rect::right`: `self.x + self.width`. -/
def Rect.right (r : Rect) : Nat := r.x + r.width

/-- `Rect::bottom`: `self.y + self.height`. -/
def Rect.bottom (r : Rect) : Nat := r.y + r.height

/-- `Rect::left_right`: `(leftest, rightest)` by `x`, ties keep `self` first. -/
def Rect.left_right (a b : Rect) : Rect × Rect :=
  if a.x ≤ b.x then (a, b) else (b, a)

/-- `Rect::high_low`: `(highest, lowest)` by `y`, ties keep `self` first. -/
def Rect.high_low (a b : Rect) : Rect × Rect :=
  if a.y ≤ b.y then (a, b) else (b, a)

/-- `Rect::intersect`: `None` when `left.right() < right.x` or
`high.bottom() < low.y`, otherwise the rectangle spanning from the
rightmost left edge and the lowest top edge to the nearer right and
bottom edges. -/
def Rect.intersect (a b : Rect) : Option Rect :=
  let lr := a.left_right b
  let hl := a.high_low b
  if lr.1.right < lr.2.x ∨ hl.1.bottom < hl.2.y then none
  else
    some { x := lr.2.x
           y := hl.2.y
           width := min a.right b.right - lr.2.x
           height := min a.bottom b.bottom - hl.2.y }

/-- `Rect::holes`: the set of points `(px, py)` for `px` in the inclusive
range `x ..= x + width` and `py` in the inclusive range `y ..= y + height`
(the Rust code uses `..=` on both axes). -/
def Rect.holes (r : Rect) : Finset Point :=
  ((List.range' r.x (r.width + 1)).flatMap fun px =>
    (List.range' r.y (r.height + 1)).map fun py => Point.mk px py).toFinset

/-- All ordered pairs of rects of the input, as produced by
`input.iter().flat_map(|a| input.iter().map(move |b| (a, b)))`. -/
def pairs (rs : List Rect) : List (Rect × Rect) :=
  rs.flatMap fun a => rs.map fun b => (a, b)

/-- The pure core of `part1`: pairs with `a != b` (field equality), each
pair's `intersect` (dropping `None`), each intersection's `holes`, folded
with the closure `|part, whole| { whole.union(&part); whole }` — the result
of `union` is discarded by the source, so the fold returns `whole`. -/
def part1Holes (rs : List Rect) : Finset Point :=
  ((((pairs rs).filter fun p => decide (p.1 ≠ p.2)).filterMap fun p =>
      p.1.intersect p.2).map Rect.holes).foldl (fun _part whole => whole) ∅

/-- The number `part1` prints: the size of the final hole set. -/
def part1Count (rs : List Rect) : Nat := (part1Holes rs).card

/-- Spec-side notion, written from the spec's words: the unit square at
integer coordinate `(i, j)` belongs to a rectangle when the coordinate lies
within its inclusive unit-square bounds `[x, x + width - 1] × [y, y + height - 1]`
(stated additively to avoid truncated subtraction). -/
def specCoversUnit (r : Rect) (i j : Nat) : Prop :=
  r.x ≤ i ∧ i + 1 ≤ r.x + r.width ∧ r.y ≤ j ∧ j + 1 ≤ r.y + r.height

/-- Spec-side notion: two rectangles share at least one unit square. -/
def specSharesUnitSquare (a b : Rect) : Prop :=
  ∃ i j, specCoversUnit a i j ∧ specCoversUnit b i j

/-! ## Parsing (`impl FromStr for Rect`)

Strings are modelled as `List Char`.  `from_str` can end three ways: a
parsed `Rect`, an early `Err` return (the boxed integer-parse error,
which carries neither the offending field nor the line), or a crash of
the whole process — a failed `assert_eq!` on the token count, or an
out-of-bounds `pos[1]` / `size[1]` index when a separator is missing. -/

/-- Rust `char::is_whitespace`, restricted to the ASCII whitespace
characters (the only ones the claims exercise). -/
def isWS (c : Char) : Bool :=
  c == ' ' || c == '\t' || c == '\n' || c == '\r'

/-- Rust `str::split_whitespace`: split on whitespace runs, no empty
tokens. -/
def splitWS (l : List Char) : List (List Char) :=
  (l.splitOnP isWS).filter fun t => !t.isEmpty

/-- Rust `str::trim_end_matches(':')`: remove every trailing colon. -/
def trimEndColons (l : List Char) : List Char :=
  (l.reverse.dropWhile fun c => c == ':').reverse

/-- Rust `str::splitn(2, sep)`: the part before the first separator and
the remainder; the whole string when the separator does not occur. -/
def splitn2 (sep : Char) (l : List Char) : List (List Char) :=
  if l.any fun c => c == sep then
    [l.takeWhile fun c => c != sep, (l.dropWhile fun c => c != sep).tail]
  else [l]

/-- The numeric value of an ASCII digit character. -/
def charToDigit (c : Char) : Nat := c.toNat - Char.toNat '0'

/-- One or more ASCII digits, read most-significant first. -/
def parseDigits (ds : List Char) : Option Nat :=
  if ds.isEmpty then none
  else if ds.all fun c => c.isDigit then
    some (ds.foldl (fun acc c => acc * 10 + charToDigit c) 0)
  else none

/-- Rust `usize::from_str`: an optional leading `+`, then one or more
ASCII digits (`usize` is modelled as `Nat`; overflow is not modelled). -/
def parseUsize (l : List Char) : Option Nat :=
  parseDigits (if l.head? = some '+' then l.tail else l)

/-- How a call of `Rect::from_str` can end: `ok` (the parsed `Rect`),
`err` (an early `return Err(..)` — the boxed integer-parse error value,
which names neither a field nor the line), or `panicked` (the process
crashed: the `assert_eq!` on the token count failed, or an index such
as `pos[1]` was out of bounds). -/
inductive ParseOutcome where
  | ok : Rect → ParseOutcome
  | err : ParseOutcome
  | panicked : ParseOutcome
deriving DecidableEq

/-- `Rect::from_str`, step for step: split on whitespace, assert exactly
4 tokens, parse token 2 (after trimming trailing colons) around `,` and
token 3 around `x`, indexing element 1 of each two-element split. -/
def from_str (s : List Char) : ParseOutcome :=
  if (splitWS s).length ≠ 4 then ParseOutcome.panicked
  else
    match (splitn2 ',' (trimEndColons ((splitWS s).getD 2 []))).mapM parseUsize with
    | none => ParseOutcome.err
    | some ps =>
      if ps.length < 2 then ParseOutcome.panicked
      else
        match (splitn2 'x' ((splitWS s).getD 3 [])).mapM parseUsize with
        | none => ParseOutcome.err
        | some ss =>
          if ss.length < 2 then ParseOutcome.panicked
          else ParseOutcome.ok ⟨ps.getD 0 0, ps.getD 1 0, ss.getD 0 0, ss.getD 1 0⟩

/-! ### Decimal representations

`repNat n` is the decimal digit string of `n`, the form in which a
non-negative number appears in a well-formed input line. -/

/-- The character of a decimal digit. -/
def digitChar : Nat → Char
  | 0 => '0'
  | 1 => '1'
  | 2 => '2'
  | 3 => '3'
  | 4 => '4'
  | 5 => '5'
  | 6 => '6'
  | 7 => '7'
  | 8 => '8'
  | _ => '9'

/-- The decimal digit characters of `n`, most significant first. -/
def repNat (n : Nat) : List Char :=
  if h : n < 10 then [digitChar n]
  else repNat (n / 10) ++ [digitChar (n % 10)]
decreasing_by omega

/-- The ten decimal digit characters. -/
def digitChars : List Char :=
  ['0', '1', '2', '3', '4', '5', '6', '7', '8', '9']

theorem mem_holes {r : Rect} {p : Point} :
    p ∈ r.holes ↔
      r.x ≤ p.x ∧ p.x ≤ r.x + r.width ∧ r.y ≤ p.y ∧ p.y ≤ r.y + r.height := by
  simp only [Rect.holes, List.mem_toFinset, List.mem_flatMap, List.mem_map,
    List.mem_range']
  constructor
  · rintro ⟨px, ⟨i, hi, rfl⟩, py, ⟨j, hj, rfl⟩, rfl⟩
    simp only
    omega
  · rintro ⟨h1, h2, h3, h4⟩
    exact ⟨p.x, ⟨p.x - r.x, by omega, by omega⟩,
      ⟨p.y, ⟨p.y - r.y, by omega, by omega⟩, rfl⟩⟩

theorem holes_eq_image (r : Rect) :
    r.holes = (Finset.Icc r.x (r.x + r.width) ×ˢ
        Finset.Icc r.y (r.y + r.height)).image fun q => Point.mk q.1 q.2 := by
  ext p
  simp only [mem_holes, Finset.mem_image, Finset.mem_product, Finset.mem_Icc]
  constructor
  · rintro ⟨h1, h2, h3, h4⟩
    exact ⟨(p.x, p.y), ⟨⟨h1, h2⟩, h3, h4⟩, rfl⟩
  · rintro ⟨⟨i, j⟩, ⟨⟨h1, h2⟩, h3, h4⟩, rfl⟩
    exact ⟨h1, h2, h3, h4⟩

theorem holes_card (r : Rect) :
    r.holes.card = (r.width + 1) * (r.height + 1) := by
  rw [holes_eq_image, Finset.card_image_of_injective, Finset.card_product,
    Nat.card_Icc, Nat.card_Icc]
  · have hx : r.x + r.width + 1 - r.x = r.width + 1 := by omega
    have hy : r.y + r.height + 1 - r.y = r.height + 1 := by omega
    rw [hx, hy]
  · rintro ⟨i, j⟩ ⟨k, l⟩ hq
    simpa [Point.mk.injEq, Prod.ext_iff] using hq

theorem isSome_ite_none {c : Prop} [Decidable c] {v : Rect} :
    ((if c then none else some v).isSome = true) ↔ ¬ c := by
  split <;> simp [*]

theorem intersect_isSome_iff_arith (a b : Rect) :
    ((a.intersect b).isSome = true) ↔
      (b.x ≤ a.x + a.width ∧ a.x ≤ b.x + b.width ∧
       b.y ≤ a.y + a.height ∧ a.y ≤ b.y + b.height) := by
  unfold Rect.intersect Rect.left_right Rect.high_low Rect.right Rect.bottom
  by_cases hx : a.x ≤ b.x <;> by_cases hy : a.y ≤ b.y <;>
    simp only [hx, hy, if_true, if_false, ite_true, ite_false] <;>
    rw [isSome_ite_none] <;>
    constructor <;> intro hcond <;> omega

/-- C2 counterexample: for the rectangle at `(3,1)` with width 2 and
height 6 (the rectangle of the source's own `test_rect_holes`), the
covered-squares enumeration does not have `width * height = 12` elements,
and it contains the point `(5, 7)`, which lies outside
`[x, x+width-1] × [y, y+height-1] = [3,4] × [1,6]`. -/
theorem holes_cex :
    ¬ ((Rect.holes ⟨3, 1, 2, 6⟩).card = 2 * 6) ∧
      Point.mk 5 7 ∈ Rect.holes ⟨3, 1, 2, 6⟩ := by
  decide

/-- C2 (amended): for every rectangle with positive width and height, the
covered-squares enumeration produces exactly `(width+1) * (height+1)`
distinct coordinate pairs, and together they cover exactly the closed
interval `[x, x+width] × [y, y+height]` (both ranges in the source are
inclusive of `x + width` resp. `y + height`). -/
theorem holes_spec (r : Rect) (_hw : 0 < r.width) (_hh : 0 < r.height) :
    r.holes.card = (r.width + 1) * (r.height + 1) ∧
    ∀ p : Point, p ∈ r.holes ↔
      r.x ≤ p.x ∧ p.x ≤ r.x + r.width ∧ r.y ≤ p.y ∧ p.y ≤ r.y + r.height :=
  ⟨holes_card r, fun _ => mem_holes⟩

/-- Witness for C2's amended theorem at the rectangle `(3,1) 2x6`. -/
theorem holes_spec_w :
    (Rect.holes ⟨3, 1, 2, 6⟩).card = (2 + 1) * (6 + 1) :=
  (holes_spec ⟨3, 1, 2, 6⟩ (by decide) (by decide)).1

/-- C3 counterexample: the rectangles `(0,0) 1x1` and `(1,0) 1x1` share
only an edge (`a.x + a.width = b.x`) and have no unit square in common,
yet `intersect` reports an overlap. -/
theorem intersect_edge_touch_cex :
    (Rect.intersect ⟨0, 0, 1, 1⟩ ⟨1, 0, 1, 1⟩).isSome = true ∧
    ¬ specSharesUnitSquare ⟨0, 0, 1, 1⟩ ⟨1, 0, 1, 1⟩ := by
  refine ⟨by decide, ?_⟩
  rintro ⟨i, j, ha, hb⟩
  simp only [specCoversUnit] at ha hb
  omega

/-- C3 (amended): the intersection test reports an overlap if and only if
the two rectangles share at least one grid point of their inclusive
covered-point sets (`holes`, which extend to `x + width` and
`y + height`); in particular two rectangles that share only an edge ARE
considered intersecting, since they share a boundary column or row of
points. -/
theorem intersect_isSome_iff (a b : Rect) :
    (a.intersect b).isSome = true ↔ ∃ p : Point, p ∈ a.holes ∧ p ∈ b.holes := by
  rw [intersect_isSome_iff_arith]
  constructor
  · rintro ⟨h1, h2, h3, h4⟩
    rcases Nat.le_total a.x b.x with hc | hc <;>
      rcases Nat.le_total a.y b.y with hd | hd
    · refine ⟨⟨b.x, b.y⟩, ?_, ?_⟩ <;> (rw [mem_holes]; dsimp only; omega)
    · refine ⟨⟨b.x, a.y⟩, ?_, ?_⟩ <;> (rw [mem_holes]; dsimp only; omega)
    · refine ⟨⟨a.x, b.y⟩, ?_, ?_⟩ <;> (rw [mem_holes]; dsimp only; omega)
    · refine ⟨⟨a.x, a.y⟩, ?_, ?_⟩ <;> (rw [mem_holes]; dsimp only; omega)
  · rintro ⟨p, hp1, hp2⟩
    rw [mem_holes] at hp1 hp2
    omega

/-- C8: the intersection operation is symmetric, in the strong sense that
`a.intersect(b)` and `b.intersect(a)` return identical results. -/
theorem intersect_comm (a b : Rect) : a.intersect b = b.intersect a := by
  obtain ⟨ax, ay, aw, ah⟩ := a
  obtain ⟨bx, byv, bw, bh⟩ := b
  unfold Rect.intersect Rect.left_right Rect.high_low Rect.right Rect.bottom
  dsimp only
  by_cases hx : ax ≤ bx <;> by_cases hx2 : bx ≤ ax <;>
  by_cases hy : ay ≤ byv <;> by_cases hy2 : byv ≤ ay <;>
    simp only [hx, hx2, hy, hy2, if_true, if_false, ite_true, ite_false] <;>
    try dsimp only
  all_goals split_ifs
  all_goals try rfl
  all_goals try (exfalso; omega)
  all_goals simp only [Option.some.injEq, Rect.mk.injEq]
  all_goals refine ⟨?_, ?_, ?_, ?_⟩
  all_goals first
    | trivial
    | omega

/-- C10: intersecting two rectangles that touch only along an edge yields
`Some` rectangle of width 0 — the engine constructs `Rect` values with a
zero extent. -/
theorem intersect_zero_extent :
    ∃ a b r : Rect, a.intersect b = some r ∧ (r.width = 0 ∨ r.height = 0) :=
  ⟨⟨0, 0, 1, 2⟩, ⟨1, 0, 1, 2⟩, ⟨1, 0, 0, 2⟩, by decide, Or.inl rfl⟩

/-- C9: when no two distinct rectangles of the input intersect (so every
pairwise `intersect` is `None`), `part1` counts 0; this covers the empty
and the singleton collection vacuously. -/
theorem part1_disjoint (rs : List Rect)
    (h : ∀ a ∈ rs, ∀ b ∈ rs, a ≠ b → a.intersect b = none) :
    part1Count rs = 0 := by
  have hnil : (((pairs rs).filter fun p => decide (p.1 ≠ p.2)).filterMap fun p =>
      p.1.intersect p.2) = [] := by
    rw [List.filterMap_eq_nil_iff]
    intro p hp
    obtain ⟨hp1, hp2⟩ := List.mem_filter.mp hp
    unfold pairs at hp1
    obtain ⟨a, ha, hb⟩ := List.mem_flatMap.mp hp1
    obtain ⟨b, hbm, rfl⟩ := List.mem_map.mp hb
    exact h a ha b hbm (of_decide_eq_true hp2)
  unfold part1Count part1Holes
  rw [hnil]
  rfl

/-- Witness for C9 at two visibly disjoint rectangles. -/
theorem part1_disjoint_w : part1Count [⟨0, 0, 1, 1⟩, ⟨5, 5, 1, 1⟩] = 0 :=
  part1_disjoint _ (by decide)

/-- C7 counterexample: a collection of two identical rectangles produces
an empty hole set — no unit square of the duplicated rectangle is
included in the overlap-area result. -/
theorem part1_duplicate_cex :
    part1Holes [⟨0, 0, 1, 1⟩, ⟨0, 0, 1, 1⟩] = ∅ := by
  decide

/-- C7 (amended): duplicate rectangles are NOT processed independently:
the pair filter `a != b` compares by field values, so every pair formed
from two identical rectangles is discarded, and a collection of two
copies of one rectangle yields overlap area 0. -/
theorem part1_duplicate_pair (r : Rect) : part1Count [r, r] = 0 := by
  unfold part1Count part1Holes pairs
  simp

/-- C1: the overlap-area computation is order dependent (the fold keeps
only the hole set of the last pairwise intersection, because the source
discards the result of `union`): the three example rectangles yield 3 in
one order and 9 in a rotated order, while the count of unit squares of
occupancy 2 or more is 4 for both. -/
theorem part1_order_dependent :
    part1Count [⟨1, 3, 4, 4⟩, ⟨3, 1, 4, 4⟩, ⟨5, 5, 2, 2⟩] = 3 ∧
    part1Count [⟨5, 5, 2, 2⟩, ⟨1, 3, 4, 4⟩, ⟨3, 1, 4, 4⟩] = 9 := by
  decide

/-- C4: on the spec's concrete three-rectangle example the code computes
3 (the holes of the last pairwise intersection, a 3-point row), not the
specified 4. -/
theorem part1_concrete_example :
    part1Count [⟨1, 3, 4, 4⟩, ⟨3, 1, 4, 4⟩, ⟨5, 5, 2, 2⟩] = 3 := by
  decide

theorem digitChar_mem (k : Nat) : digitChar k ∈ digitChars := by
  unfold digitChar
  split <;> decide

theorem mem_repNat_digits (n : Nat) : ∀ c ∈ repNat n, c ∈ digitChars := by
  induction n using Nat.strong_induction_on with
  | _ n ih =>
    rw [repNat]
    split
    · intro c hc
      simp only [List.mem_singleton] at hc
      subst hc
      exact digitChar_mem n
    · intro c hc
      rcases List.mem_append.mp hc with hc | hc
      · exact ih (n / 10) (by omega) c hc
      · simp only [List.mem_singleton] at hc
        subst hc
        exact digitChar_mem (n % 10)

theorem repNat_ne_nil (n : Nat) : repNat n ≠ [] := by
  rw [repNat]
  split <;> simp

theorem digit_not_ws {c : Char} (h : c ∈ digitChars) : isWS c = false := by
  fin_cases h <;> decide

theorem digit_ne_comma {c : Char} (h : c ∈ digitChars) : (c == ',') = false := by
  fin_cases h <;> decide

theorem digit_ne_colon {c : Char} (h : c ∈ digitChars) : (c == ':') = false := by
  fin_cases h <;> decide

theorem digit_ne_x {c : Char} (h : c ∈ digitChars) : (c == 'x') = false := by
  fin_cases h <;> decide

theorem digit_isDigit {c : Char} (h : c ∈ digitChars) : c.isDigit = true := by
  fin_cases h <;> decide

theorem digit_ne_plus {c : Char} (h : c ∈ digitChars) : c ≠ '+' := by
  fin_cases h <;> decide

theorem charToDigit_digitChar (d : Nat) (h : d < 10) :
    charToDigit (digitChar d) = d := by
  interval_cases d <;> decide

theorem foldl_digits_repNat (n a : Nat) :
    (repNat n).foldl (fun acc c => acc * 10 + charToDigit c) a
      = a * 10 ^ (repNat n).length + n := by
  induction n using Nat.strong_induction_on generalizing a with
  | _ n ih =>
    rw [repNat]
    split
    · rename_i h
      simp only [List.foldl_cons, List.foldl_nil, List.length_cons,
        List.length_nil, pow_one, zero_add]
      rw [charToDigit_digitChar n h]
    · rename_i h
      rw [List.foldl_append, ih (n / 10) (by omega)]
      simp only [List.foldl_cons, List.foldl_nil, List.length_append,
        List.length_cons, List.length_nil, zero_add]
      rw [charToDigit_digitChar (n % 10) (by omega), pow_succ, ← mul_assoc]
      set A := a * 10 ^ (repNat (n / 10)).length with hA
      omega

theorem parseUsize_repNat (n : Nat) : parseUsize (repNat n) = some n := by
  have hdig := mem_repNat_digits n
  have hne := repNat_ne_nil n
  have hhead : ¬ ((repNat n).head? = some '+') := by
    cases hr : repNat n with
    | nil => simp
    | cons c cs =>
      have hc : c ∈ digitChars := by
        refine hdig c ?_
        rw [hr]
        exact List.mem_cons_self c cs
      simp only [List.head?_cons, Option.some.injEq]
      exact digit_ne_plus hc
  have hemp : ¬ ((repNat n).isEmpty = true) := by
    simp only [List.isEmpty_eq_true]
    exact hne
  have hall : ((repNat n).all fun c => c.isDigit) = true := by
    rw [List.all_eq_true]
    intro c hc
    exact digit_isDigit (hdig c hc)
  unfold parseUsize parseDigits
  rw [if_neg hhead, if_neg hemp, if_pos hall, foldl_digits_repNat n 0]
  simp

theorem splitWS_sep (t rest : List Char) (ht : t ≠ [])
    (hws : ∀ c ∈ t, isWS c = false) :
    splitWS (t ++ ' ' :: rest) = t :: splitWS rest := by
  unfold splitWS
  rw [List.splitOnP_first isWS t (by intro x hx; simp [hws x hx]) ' '
    (by decide) rest]
  rw [List.filter_cons]
  simp [ht]

theorem splitWS_single (t : List Char) (ht : t ≠ [])
    (hws : ∀ c ∈ t, isWS c = false) :
    splitWS t = [t] := by
  unfold splitWS
  rw [List.splitOnP_eq_single isWS t (by intro x hx; simp [hws x hx])]
  simp [ht]

theorem takeWhile_middle (p : Char → Bool) (xs ys : List Char) (s : Char)
    (hxs : ∀ x ∈ xs, p x = true) (hs : p s = false) :
    (xs ++ s :: ys).takeWhile p = xs := by
  induction xs with
  | nil => simp [List.takeWhile_cons, hs]
  | cons a as ih =>
    have ha : p a = true := hxs a (List.mem_cons_self a as)
    simp [List.takeWhile_cons, ha,
      ih fun x hx => hxs x (List.mem_cons_of_mem a hx)]

theorem dropWhile_middle (p : Char → Bool) (xs ys : List Char) (s : Char)
    (hxs : ∀ x ∈ xs, p x = true) (hs : p s = false) :
    (xs ++ s :: ys).dropWhile p = s :: ys := by
  induction xs with
  | nil => simp [List.dropWhile_cons, hs]
  | cons a as ih =>
    simp [List.dropWhile_cons, hxs a (List.mem_cons_self a as),
      ih fun x hx => hxs x (List.mem_cons_of_mem a hx)]

theorem dropWhile_all_false (p : Char → Bool) (xs : List Char)
    (h : ∀ x ∈ xs, p x = false) : xs.dropWhile p = xs := by
  cases xs with
  | nil => rfl
  | cons a as => simp [List.dropWhile_cons, h a (List.mem_cons_self a as)]

theorem trimEndColons_append_colon (l : List Char) :
    trimEndColons (l ++ [':']) = trimEndColons l := by
  unfold trimEndColons
  rw [List.reverse_append]
  simp [List.dropWhile_cons]

theorem trimEndColons_no_colon (l : List Char)
    (h : ∀ c ∈ l, (c == ':') = false) : trimEndColons l = l := by
  unfold trimEndColons
  rw [dropWhile_all_false _ _ fun c hc => h c (List.mem_reverse.mp hc)]
  exact List.reverse_reverse l

theorem splitn2_middle (sep : Char) (xs ys : List Char)
    (hxs : ∀ x ∈ xs, (x == sep) = false) :
    splitn2 sep (xs ++ sep :: ys) = [xs, ys] := by
  unfold splitn2
  rw [if_pos (by simp only [List.any_eq_true]; exact ⟨sep, by simp, by simp⟩)]
  rw [takeWhile_middle _ xs ys sep
    (fun x hx => by simp only [bne, hxs x hx]; rfl) (by simp [bne])]
  rw [dropWhile_middle _ xs ys sep
    (fun x hx => by simp only [bne, hxs x hx]; rfl) (by simp [bne])]
  simp

/-- C5 counterexample: the malformed lines of the spec do not produce an
error value at all — the token-count assertion fails and the process
panics. -/
theorem from_str_cex :
    from_str ("garbage".data) = ParseOutcome.panicked ∧
    from_str ("#1 @ 3,2: 5x4 extra".data) = ParseOutcome.panicked ∧
    ¬ from_str ("garbage".data) = ParseOutcome.err := by
  decide

/-- C5 (amended): every input line whose whitespace-token count differs
from 4 makes parsing panic on the failed `assert_eq!` instead of
returning an error value; only non-numeric position or size fields
produce an `Err` return, and that error is the underlying integer-parse
error, which names neither the offending field nor the original line. -/
theorem from_str_token_count (s : List Char)
    (h : (splitWS s).length ≠ 4) : from_str s = ParseOutcome.panicked := by
  unfold from_str
  rw [if_pos h]

/-- Witness for C5's amended theorem at the line `garbage`. -/
theorem from_str_token_count_w :
    from_str ("garbage".data) = ParseOutcome.panicked :=
  from_str_token_count _ (by decide)

/-- A non-numeric position field returns an error value (it does not
panic); the error value carries no field or line information. -/
theorem from_str_err_example :
    from_str ("#1 @ a,2: 5x4".data) = ParseOutcome.err := by
  decide

/-- C6 counterexample: the `#ID` token is dropped — two lines differing
only in their id parse to the same 4-field rectangle, so no parsed value
retains the id. -/
theorem from_str_id_dropped :
    from_str ("#123 @ 3,2: 5x4".data) = ParseOutcome.ok ⟨3, 2, 5, 4⟩ ∧
    from_str ("#999 @ 3,2: 5x4".data) = ParseOutcome.ok ⟨3, 2, 5, 4⟩ := by
  decide

/-- C6 (amended): for every line `<id-token> @ <x>,<y>: <w>x<h>` whose
numbers are decimal representations, parsing succeeds and returns a
rectangle whose four fields `x`, `y`, `width`, `height` are exactly the
four numbers; the id token is neither validated nor retained. -/
theorem from_str_valid (tid : List Char) (x y w h : Nat)
    (ht : tid ≠ []) (hws : ∀ c ∈ tid, isWS c = false) :
    from_str (tid ++ ' ' :: '@' :: ' ' ::
        ((repNat x ++ ',' :: repNat y ++ [':']) ++ ' ' ::
          (repNat w ++ 'x' :: repNat h)))
      = ParseOutcome.ok ⟨x, y, w, h⟩ := by
  have hposws : ∀ c ∈ repNat x ++ ',' :: repNat y ++ [':'], isWS c = false := by
    intro c hc
    rcases List.mem_append.mp hc with hc | hc
    · rcases List.mem_append.mp hc with hc | hc
      · exact digit_not_ws (mem_repNat_digits x c hc)
      · rcases List.mem_cons.mp hc with rfl | hc
        · decide
        · exact digit_not_ws (mem_repNat_digits y c hc)
    · simp only [List.mem_singleton] at hc
      subst hc
      decide
  have hsizews : ∀ c ∈ repNat w ++ 'x' :: repNat h, isWS c = false := by
    intro c hc
    rcases List.mem_append.mp hc with hc | hc
    · exact digit_not_ws (mem_repNat_digits w c hc)
    · rcases List.mem_cons.mp hc with rfl | hc
      · decide
      · exact digit_not_ws (mem_repNat_digits h c hc)
  have hposne : (repNat x ++ ',' :: repNat y ++ [':']) ≠ [] := by simp
  have hsizene : (repNat w ++ 'x' :: repNat h) ≠ [] := by simp
  have hsplit : splitWS (tid ++ ' ' :: '@' :: ' ' ::
      ((repNat x ++ ',' :: repNat y ++ [':']) ++ ' ' ::
        (repNat w ++ 'x' :: repNat h)))
      = [tid, ['@'], repNat x ++ ',' :: repNat y ++ [':'],
          repNat w ++ 'x' :: repNat h] := by
    rw [splitWS_sep tid _ ht hws]
    have e2 : splitWS ('@' :: ' ' ::
        ((repNat x ++ ',' :: repNat y ++ [':']) ++ ' ' ::
          (repNat w ++ 'x' :: repNat h)))
        = ['@'] :: splitWS ((repNat x ++ ',' :: repNat y ++ [':']) ++ ' ' ::
            (repNat w ++ 'x' :: repNat h)) :=
      splitWS_sep ['@'] _ (by simp)
        (by
          intro c hc
          simp only [List.mem_singleton] at hc
          subst hc
          decide)
    rw [e2, splitWS_sep _ _ hposne hposws, splitWS_single _ hsizene hsizews]
  have htrim : trimEndColons (repNat x ++ ',' :: repNat y ++ [':'])
      = repNat x ++ ',' :: repNat y := by
    rw [trimEndColons_append_colon, trimEndColons_no_colon]
    intro c hc
    rcases List.mem_append.mp hc with hc | hc
    · exact digit_ne_colon (mem_repNat_digits x c hc)
    · rcases List.mem_cons.mp hc with rfl | hc
      · decide
      · exact digit_ne_colon (mem_repNat_digits y c hc)
  have hmap1 : (splitn2 ','
      (trimEndColons (repNat x ++ ',' :: repNat y ++ [':']))).mapM parseUsize
      = some [x, y] := by
    rw [htrim, splitn2_middle ',' (repNat x) (repNat y)
      fun c hc => digit_ne_comma (mem_repNat_digits x c hc)]
    simp [List.mapM.loop, parseUsize_repNat]
  have hmap2 : (splitn2 'x' (repNat w ++ 'x' :: repNat h)).mapM parseUsize
      = some [w, h] := by
    rw [splitn2_middle 'x' (repNat w) (repNat h)
      fun c hc => digit_ne_x (mem_repNat_digits w c hc)]
    simp [List.mapM.loop, parseUsize_repNat]
  unfold from_str
  rw [hsplit]
  rw [if_neg (show ¬ (([tid, ['@'], repNat x ++ ',' :: repNat y ++ [':'],
    repNat w ++ 'x' :: repNat h].length) ≠ 4) by simp)]
  simp only [List.getD_cons_succ, List.getD_cons_zero]
  rw [hmap1]
  dsimp only
  rw [if_neg (by simp)]
  rw [hmap2]
  dsimp only
  rw [if_neg (by simp)]
  simp [List.getD_cons_succ, List.getD_cons_zero]

/-- Witness for C6's amended theorem: the line `#123 @ 3,2: 5x4` built
from its pieces parses to the rectangle `(3, 2) 5x4`. -/
theorem from_str_valid_w :
    from_str (('#' :: repNat 123) ++ ' ' :: '@' :: ' ' ::
        ((repNat 3 ++ ',' :: repNat 2 ++ [':']) ++ ' ' ::
          (repNat 5 ++ 'x' :: repNat 4)))
      = ParseOutcome.ok ⟨3, 2, 5, 4⟩ :=
  from_str_valid ('#' :: repNat 123) 3 2 5 4 (List.cons_ne_nil _ _)
    (by
      intro c hc
      rcases List.mem_cons.mp hc with rfl | hc
      · decide
      · exact digit_not_ws (mem_repNat_digits 123 c hc))

end Day3
